import Mathlib

/-!
Shallow embedding of the snapshot store of `timeturner_app.py` (the `Database`
class and the `Snapshot` model), together with theorems checking the frozen
claims about it.

Modelling conventions:
- Timestamps are integers counting seconds (the store keeps second-precision
  datetimes; `timedelta(days=14)` is 1209600 seconds, `timedelta(seconds=60)`
  is 60, `timedelta(days=1)` is 86400).
- The store state is the list of live `Snapshot` rows.  The auto-assigned
  `snapshot_id` primary key is never exposed as a lookup key and is omitted.
- The injected clock (`datetime_now`) is modelled by passing `now` explicitly
  to the write operation.
- Raw contents are a list of byte values (`List Nat`); the Python expression
  `csv_contents.decode(utf8, replace).encode(ascii, xmlcharrefreplace)`
  is embedded as `cleanContents` below.
- A failed write raises; the enclosing unit of work rolls the session back
  (`TimeTurnerApp.__call__`), so the observable store state after a rejected
  `add_snapshot` is the unchanged pre-state.
- The read methods (`get_all_days`, `get_timestamps`,
  `get_snapshot_info_at_time`, `get_snapshot_contents`) issue only SELECT
  queries and never modify the session, so they are embedded as pure
  functions of the state.
-/

namespace TimeTurner

/-- Is `b` a UTF-8 continuation byte (`0x80..0xBF`)? -/
def utf8Cont (b : Nat) : Bool := 0x80 ≤ b && b ≤ 0xBF

/-- Admissible second byte after a three-byte lead `b` (`0xE0..0xEF`):
`0xE0` forbids overlong encodings, `0xED` forbids surrogates. -/
def utf8Second (b b2 : Nat) : Bool :=
  if b = 0xE0 then 0xA0 ≤ b2 && b2 ≤ 0xBF
  else if b = 0xED then 0x80 ≤ b2 && b2 ≤ 0x9F
  else utf8Cont b2

/-- Admissible second byte after a four-byte lead `b` (`0xF0..0xF4`):
`0xF0` forbids overlong encodings, `0xF4` caps code points at `0x10FFFF`. -/
def utf8SecondOf4 (b b2 : Nat) : Bool :=
  if b = 0xF0 then 0x90 ≤ b2 && b2 ≤ 0xBF
  else if b = 0xF4 then 0x80 ≤ b2 && b2 ≤ 0x8F
  else utf8Cont b2

/-- Worker for UTF-8 decoding with replacement.  Each outer step consumes
at least one byte, so a fuel equal to the length of the byte list is always
enough; the fuel argument only makes the recursion structural (the zero
case is unreachable when the fuel bounds the length). -/
def utf8DecodeReplaceAux : Nat → List Nat → List Nat
  | _, [] => []
  | 0, _ :: _ => []
  | fuel + 1, b :: rest =>
    if b ≤ 0x7F then b :: utf8DecodeReplaceAux fuel rest
    else if 0xC2 ≤ b ∧ b ≤ 0xDF then
      match rest with
      | b2 :: rest2 =>
        if utf8Cont b2 then
          ((b - 0xC0) * 0x40 + (b2 - 0x80)) :: utf8DecodeReplaceAux fuel rest2
        else 0xFFFD :: utf8DecodeReplaceAux fuel (b2 :: rest2)
      | [] => [0xFFFD]
    else if 0xE0 ≤ b ∧ b ≤ 0xEF then
      match rest with
      | b2 :: rest2 =>
        if utf8Second b b2 then
          match rest2 with
          | b3 :: rest3 =>
            if utf8Cont b3 then
              ((b - 0xE0) * 0x1000 + (b2 - 0x80) * 0x40 + (b3 - 0x80)) ::
                utf8DecodeReplaceAux fuel rest3
            else 0xFFFD :: utf8DecodeReplaceAux fuel (b3 :: rest3)
          | [] => [0xFFFD]
        else 0xFFFD :: utf8DecodeReplaceAux fuel (b2 :: rest2)
      | [] => [0xFFFD]
    else if 0xF0 ≤ b ∧ b ≤ 0xF4 then
      match rest with
      | b2 :: rest2 =>
        if utf8SecondOf4 b b2 then
          match rest2 with
          | b3 :: rest3 =>
            if utf8Cont b3 then
              match rest3 with
              | b4 :: rest4 =>
                if utf8Cont b4 then
                  ((b - 0xF0) * 0x40000 + (b2 - 0x80) * 0x1000 +
                      (b3 - 0x80) * 0x40 + (b4 - 0x80)) ::
                    utf8DecodeReplaceAux fuel rest4
                else 0xFFFD :: utf8DecodeReplaceAux fuel (b4 :: rest4)
              | [] => [0xFFFD]
            else 0xFFFD :: utf8DecodeReplaceAux fuel (b3 :: rest3)
          | [] => [0xFFFD]
        else 0xFFFD :: utf8DecodeReplaceAux fuel (b2 :: rest2)
      | [] => [0xFFFD]
    else 0xFFFD :: utf8DecodeReplaceAux fuel rest

/-- UTF-8 decoding with replacement, embedding the Python call
`csv_contents.decode(utf8, replace)`: each well-formed sequence yields its
code point, and each maximal invalid subpart yields one replacement
character `U+FFFD` (`0xFFFD`), decoding resuming at the next byte. -/
def utf8DecodeReplace (l : List Nat) : List Nat := utf8DecodeReplaceAux l.length l

/-- Decimal digit characters of `n`, most significant first, prepended to
`acc`; embeds the decimal rendering used by the `xmlcharrefreplace`
error handler of `str.encode`.  The fuel only makes the recursion
structural: each step divides `n` by ten, so a fuel of `n` is always
enough and the zero case is unreachable from `decimalDigits`. -/
def natDigitsAux : Nat → Nat → List Char → List Char
  | 0, _, acc => acc
  | fuel + 1, n, acc =>
    if n < 10 then Char.ofNat (0x30 + n) :: acc
    else natDigitsAux fuel (n / 10) (Char.ofNat (0x30 + n % 10) :: acc)

/-- Decimal digit characters of `n`, most significant first. -/
def decimalDigits (n : Nat) : List Char := natDigitsAux n n []

/-- The decimal numeric character reference for code point `cp`,
for instance `&#128520;`. -/
def xmlCharRef (cp : Nat) : List Char := '&' :: '#' :: (decimalDigits cp ++ [';'])

/-- ASCII encoding of a sequence of code points, embedding the Python call
`.encode(ascii, xmlcharrefreplace)`: code points below `0x80` pass through,
every other code point becomes its decimal numeric character reference. -/
def encodeAsciiXmlCharRef : List Nat → List Char
  | [] => []
  | cp :: rest =>
    if cp < 0x80 then Char.ofNat cp :: encodeAsciiXmlCharRef rest
    else xmlCharRef cp ++ encodeAsciiXmlCharRef rest

/-- The contents normalization performed at the top of
`Database.add_snapshot`:
`csv_contents.decode(utf8, replace).encode(ascii, xmlcharrefreplace)`. -/
def cleanContents (csvContents : List Nat) : String :=
  String.mk (encodeAsciiXmlCharRef (utf8DecodeReplace csvContents))

/-- One row of the `snapshot` table.  The auto-increment `snapshot_id`
primary key is omitted (never exposed as a lookup key); `contents` holds the
normalized text. -/
structure Snapshot where
  timestamp : Int
  hostname : String
  title : String
  contents : String
deriving DecidableEq, Repr

/-- The store state: the list of live snapshot rows. -/
abbrev State := List Snapshot

/-- The key carried by `DuplicateSnapshotError`: timestamp, hostname,
title. -/
abbrev DupKey := Int × String × String

/-- Errors raised by `Query.one()` in `get_snapshot_contents`: zero rows
raise `NoResultFound` (the NotFoundError of the interface table), two or
more rows raise `MultipleResultsFound` (AmbiguousError). -/
inductive GetContentsError where
  | noResultFound
  | multipleResultsFound
deriving DecidableEq, Repr

/-- `timedelta(days=14)` in seconds, the retention horizon of
`_clean_old_snapshots`. -/
def fourteenDaysSeconds : Int := 14 * 86400

/-- `timedelta(seconds=60)` in seconds, the read window width. -/
def sixtySeconds : Int := 60

/-- `timedelta(days=1)` in seconds. -/
def oneDaySeconds : Int := 86400

/-- Does the state hold a row with exactly this `(timestamp, hostname,
title)` triple?  This is the `UniqueConstraint` of the `snapshot` table:
`session.flush()` raises `IntegrityError` precisely when the inserted row
collides with an existing one on the triple. -/
def hasDuplicateKey (st : State) (t : Int) (h title : String) : Bool :=
  st.any fun s => decide (s.timestamp = t) && (s.hostname == h) && (s.title == title)

/-- `Database._clean_old_snapshots`: delete every snapshot whose timestamp
is strictly below `now - timedelta(days=14)`; equivalently keep exactly the
rows that are not strictly older than the horizon. -/
def cleanOldSnapshots (now : Int) (st : State) : State :=
  st.filter fun s => ! decide (s.timestamp < now - fourteenDaysSeconds)

/-- The row built and inserted by `Database.add_snapshot`: the given key
fields plus the normalized contents. -/
def mkCleanSnapshot (t : Int) (h title : String) (csvContents : List Nat) : Snapshot :=
  { timestamp := t, hostname := h, title := title, contents := cleanContents csvContents }

/-- `Database.add_snapshot`: normalize the contents, insert the row, flush
(raising `DuplicateSnapshotError` with the conflicting key if the
uniqueness constraint rejects it, in which case the unit of work is rolled
back and the state is unchanged), then run the retention sweep with the
injected clock value `now`. -/
def addSnapshot (st : State) (now t : Int) (h title : String) (csvContents : List Nat) :
    Option DupKey × State :=
  if hasDuplicateKey st t h title then
    (some (t, h, title), st)
  else
    (none, cleanOldSnapshots now (st ++ [mkCleanSnapshot t h title csvContents]))

/-- The filter of `Database.get_snapshot_contents`: timestamp in the
half-open window `[t, t+60s)` and exact hostname and title match. -/
def matchesQuery (t : Int) (h title : String) (s : Snapshot) : Bool :=
  decide (t ≤ s.timestamp) && decide (s.timestamp < t + sixtySeconds) &&
    (s.hostname == h) && (s.title == title)

/-- The rows satisfying the `get_snapshot_contents` filter. -/
def matchingSnapshots (st : State) (t : Int) (h title : String) : List Snapshot :=
  st.filter (matchesQuery t h title)

/-- `Database.get_snapshot_contents`: window plus exact-key filter, then
`Query.one()`, which demands exactly one row. -/
def getSnapshotContents (st : State) (t : Int) (h title : String) :
    Except GetContentsError String :=
  match matchingSnapshots st t h title with
  | [] => Except.error GetContentsError.noResultFound
  | [s] => Except.ok s.contents
  | _ :: _ :: _ => Except.error GetContentsError.multipleResultsFound

/-- Insert `x` into a strictly ascending list, keeping it strictly
ascending and duplicate-free. -/
def insertSortedNoDup (x : Int) : List Int → List Int
  | [] => [x]
  | y :: ys =>
    if x < y then x :: y :: ys
    else if x = y then y :: ys
    else y :: insertSortedNoDup x ys

/-- The Python idiom `sorted(set(xs))`: the distinct elements of `xs` in
strictly ascending order. -/
def sortedDedup (xs : List Int) : List Int := xs.foldr insertSortedNoDup []

/-- `timestamp.replace(second=0, microsecond=0)` on a second-count:
truncate to the whole minute (floor, matching Python clock arithmetic). -/
def minuteTruncate (ts : Int) : Int := ts - Int.emod ts 60

/-- `Database.get_timestamps`: minute-truncated timestamps of the snapshots
whose timestamp falls in `[day 00:00:00, day+1 00:00:00)`, as
`sorted(set(...))`.  `day` is the midnight starting the requested day. -/
def getTimestamps (st : State) (day : Int) : List Int :=
  sortedDedup
    ((st.filter fun s =>
        decide (day ≤ s.timestamp) && decide (s.timestamp < day + oneDaySeconds)).map
      fun s => minuteTruncate s.timestamp)

/-- The calendar date of a timestamp, as a day count (floor division,
matching `datetime.date()`). -/
def dateOf (ts : Int) : Int := Int.ediv ts oneDaySeconds

/-- `Database.get_all_days`: the distinct dates of all live snapshots,
ascending, as `sorted(set(...))`. -/
def getAllDays (st : State) : List Int :=
  sortedDedup (st.map fun s => dateOf s.timestamp)

/-- The ordering used by `order_by(hostname.asc(), title.asc())`:
lexicographic on the `(hostname, title)` pair. -/
def pairLe (a b : String × String) : Bool :=
  decide (a.1 < b.1) || ((a.1 == b.1) && decide (a.2 ≤ b.2))

/-- `Database.get_snapshot_info_at_time`: the `(hostname, title)` pairs of
the snapshots whose timestamp falls in `[t, t+60s)`, ordered by hostname
then title.  The SQL orders rows by exactly the projected pair, so sorting
the projected pairs is the same list. -/
def getSnapshotInfoAtTime (st : State) (t : Int) : List (String × String) :=
  ((st.filter fun s =>
      decide (t ≤ s.timestamp) && decide (s.timestamp < t + sixtySeconds)).map
    fun s => (s.hostname, s.title)).mergeSort pairLe

/-- One store operation, as dispatched by the request handlers: a write
(with the clock reading `now` taken at that call) or one of the four
reads. -/
inductive Op where
  | add (now t : Int) (h title : String) (csvContents : List Nat)
  | listDays
  | listMinutes (day : Int)
  | listAt (t : Int)
  | getContents (t : Int) (h title : String)

/-- State transition of one operation.  The four read methods issue only
SELECT queries, so they leave the state unchanged; the write path is
`addSnapshot` (its rejected branch already models the rollback). -/
def applyOp (st : State) : Op → State
  | Op.add now t h title csvContents => (addSnapshot st now t h title csvContents).2
  | Op.listDays => st
  | Op.listMinutes _ => st
  | Op.listAt _ => st
  | Op.getContents _ _ _ => st

/-- The state reached by running a sequence of operations from the empty
store. -/
def runOps (ops : List Op) : State := ops.foldl applyOp []

/-- Two rows agree on the unique key `(timestamp, hostname, title)`. -/
abbrev sameKey (a b : Snapshot) : Prop :=
  a.timestamp = b.timestamp ∧ a.hostname = b.hostname ∧ a.title = b.title

/-- The uniqueness invariant enforced by the `UniqueConstraint`: no two
distinct live rows share their `(timestamp, hostname, title)` triple. -/
def UniqueKeys (st : State) : Prop :=
  List.Pairwise (fun a b => ¬ sameKey a b) st

/-- A string is ASCII-only: every character has code point below 128. -/
def allAscii (s : String) : Prop := ∀ c ∈ s.data, c.toNat < 0x80

/-- Number of live rows with exactly the key `(t, h, title)`. -/
def exactKeyCount (st : State) (t : Int) (h title : String) : Nat :=
  st.countP fun s => decide (s.timestamp = t) && (s.hostname == h) && (s.title == title)

theorem fourteenDaysSeconds_eq : fourteenDaysSeconds = 1209600 := rfl

theorem sixtySeconds_eq : sixtySeconds = 60 := rfl

theorem oneDaySeconds_eq : oneDaySeconds = 86400 := rfl

theorem toNat_charOfNat_of_lt {n : Nat} (hn : n < 0x80) : (Char.ofNat n).toNat = n := by
  have hv : n.isValidChar := Or.inl (by omega)
  rw [Char.ofNat, dif_pos hv]
  rfl

theorem natDigitsAux_ascii (fuel : Nat) : ∀ (n : Nat) (acc : List Char),
    (∀ c ∈ acc, c.toNat < 0x80) → ∀ c ∈ natDigitsAux fuel n acc, c.toNat < 0x80 := by
  induction fuel with
  | zero =>
    intro n acc hacc
    rw [natDigitsAux]
    exact hacc
  | succ fuel ih =>
    intro n acc hacc
    rw [natDigitsAux]
    split
    · next hlt =>
      intro c hc
      rcases List.mem_cons.mp hc with rfl | hc
      · rw [toNat_charOfNat_of_lt (by omega)]; omega
      · exact hacc c hc
    · apply ih
      intro c hc
      rcases List.mem_cons.mp hc with rfl | hc
      · have hm : n % 10 < 10 := Nat.mod_lt _ (by omega)
        rw [toNat_charOfNat_of_lt (by omega)]; omega
      · exact hacc c hc

theorem xmlCharRef_ascii (cp : Nat) : ∀ c ∈ xmlCharRef cp, c.toNat < 0x80 := by
  intro c hc
  rcases List.mem_cons.mp hc with rfl | hc
  · decide
  rcases List.mem_cons.mp hc with rfl | hc
  · decide
  rcases List.mem_append.mp hc with hc | hc
  · exact natDigitsAux_ascii cp cp [] (by intro c hc; cases hc) c hc
  · rcases List.mem_singleton.mp hc with rfl
    decide

theorem encodeAsciiXmlCharRef_ascii (cps : List Nat) :
    ∀ c ∈ encodeAsciiXmlCharRef cps, c.toNat < 0x80 := by
  induction cps with
  | nil => intro c hc; cases hc
  | cons cp rest ih =>
    intro c hc
    rw [encodeAsciiXmlCharRef] at hc
    split at hc
    · rcases List.mem_cons.mp hc with rfl | hc
      · rwa [toNat_charOfNat_of_lt (by omega)]
      · exact ih c hc
    · rcases List.mem_append.mp hc with hc | hc
      · exact xmlCharRef_ascii cp c hc
      · exact ih c hc

theorem allAscii_cleanContents (csvContents : List Nat) : allAscii (cleanContents csvContents) :=
  fun c hc => encodeAsciiXmlCharRef_ascii _ c hc

theorem hasDuplicateKey_iff (st : State) (t : Int) (h title : String) :
    hasDuplicateKey st t h title = true ↔
      ∃ s ∈ st, s.timestamp = t ∧ s.hostname = h ∧ s.title = title := by
  simp [hasDuplicateKey, List.any_eq_true, Bool.and_eq_true, decide_eq_true_eq, beq_iff_eq,
    and_assoc]

theorem matchesQuery_iff (t : Int) (h title : String) (s : Snapshot) :
    matchesQuery t h title s = true ↔
      t ≤ s.timestamp ∧ s.timestamp < t + sixtySeconds ∧ s.hostname = h ∧ s.title = title := by
  simp [matchesQuery, Bool.and_eq_true, decide_eq_true_eq, beq_iff_eq, and_assoc]

theorem mem_insertSortedNoDup (x a : Int) (l : List Int) :
    a ∈ insertSortedNoDup x l ↔ a = x ∨ a ∈ l := by
  induction l with
  | nil => simp [insertSortedNoDup]
  | cons y ys ih =>
    rw [insertSortedNoDup]
    split
    · simp [List.mem_cons]
    · split
      · next hxy => subst hxy; simp [List.mem_cons]
      · simp [List.mem_cons, ih]; tauto

theorem pairwise_insertSortedNoDup (x : Int) (l : List Int)
    (hl : List.Pairwise (· < ·) l) : List.Pairwise (· < ·) (insertSortedNoDup x l) := by
  induction l with
  | nil => simp [insertSortedNoDup]
  | cons y ys ih =>
    rcases List.pairwise_cons.mp hl with ⟨hy, hys⟩
    rw [insertSortedNoDup]
    split
    · next hxy =>
      refine List.pairwise_cons.mpr ⟨?_, hl⟩
      intro z hz
      rcases List.mem_cons.mp hz with rfl | hz
      · exact hxy
      · exact lt_trans hxy (hy z hz)
    · split
      · exact hl
      · next hnlt hne =>
        refine List.pairwise_cons.mpr ⟨?_, ih hys⟩
        intro z hz
        rcases (mem_insertSortedNoDup x z ys).mp hz with rfl | hz
        · omega
        · exact hy z hz

theorem mem_sortedDedup (xs : List Int) (a : Int) : a ∈ sortedDedup xs ↔ a ∈ xs := by
  induction xs with
  | nil => simp [sortedDedup]
  | cons x xs ih =>
    show a ∈ insertSortedNoDup x (sortedDedup xs) ↔ _
    rw [mem_insertSortedNoDup, ih]
    simp [List.mem_cons]

theorem pairwise_sortedDedup (xs : List Int) : List.Pairwise (· < ·) (sortedDedup xs) := by
  induction xs with
  | nil => exact List.Pairwise.nil
  | cons x xs ih => exact pairwise_insertSortedNoDup x (sortedDedup xs) ih

theorem pairLe_iff (a b : String × String) :
    pairLe a b = true ↔ a.1 < b.1 ∨ (a.1 = b.1 ∧ a.2 ≤ b.2) := by
  simp [pairLe, Bool.or_eq_true, Bool.and_eq_true, decide_eq_true_eq, beq_iff_eq]

theorem pairLe_trans (a b c : String × String) :
    pairLe a b → pairLe b c → pairLe a c := by
  simp only [pairLe_iff]
  rintro (hab | ⟨hab, hab2⟩) (hbc | ⟨hbc, hbc2⟩)
  · exact Or.inl (lt_trans hab hbc)
  · exact Or.inl (hbc ▸ hab)
  · exact Or.inl (hab ▸ hbc)
  · exact Or.inr ⟨hab.trans hbc, le_trans hab2 hbc2⟩

theorem pairLe_total (a b : String × String) : pairLe a b || pairLe b a := by
  simp only [Bool.or_eq_true, pairLe_iff]
  rcases lt_trichotomy a.1 b.1 with hlt | heq | hgt
  · exact Or.inl (Or.inl hlt)
  · rcases le_total a.2 b.2 with hle | hle
    · exact Or.inl (Or.inr ⟨heq, hle⟩)
    · exact Or.inr (Or.inr ⟨heq.symm, hle⟩)
  · exact Or.inr (Or.inl hgt)

theorem mem_applyOp (st : State) (op : Op) (s : Snapshot) (hs : s ∈ applyOp st op) :
    s ∈ st ∨ ∃ now t h title csvContents,
      op = Op.add now t h title csvContents ∧ s = mkCleanSnapshot t h title csvContents := by
  cases op with
  | add now t h title csvContents =>
    rw [applyOp, addSnapshot] at hs
    split at hs
    · exact Or.inl hs
    · rcases List.mem_filter.mp hs with ⟨hmem, -⟩
      rcases List.mem_append.mp hmem with hmem | hmem
      · exact Or.inl hmem
      · rcases List.mem_singleton.mp hmem with rfl
        exact Or.inr ⟨now, t, h, title, csvContents, rfl, rfl⟩
  | listDays => exact Or.inl hs
  | listMinutes day => exact Or.inl hs
  | listAt t => exact Or.inl hs
  | getContents t h title => exact Or.inl hs

theorem uniqueKeys_applyOp (st : State) (op : Op) (hu : UniqueKeys st) :
    UniqueKeys (applyOp st op) := by
  cases op with
  | add now t h title csvContents =>
    rw [applyOp, addSnapshot]
    split
    · exact hu
    · next hnd =>
      apply List.Pairwise.filter
      rw [List.pairwise_append]
      refine ⟨hu, List.pairwise_singleton _ _, ?_⟩
      intro a ha b hb
      rcases List.mem_singleton.mp hb with rfl
      rintro ⟨hts, hh, hti⟩
      exact hnd ((hasDuplicateKey_iff st t h title).mpr ⟨a, ha, hts, hh, hti⟩)
  | listDays => exact hu
  | listMinutes day => exact hu
  | listAt t => exact hu
  | getContents t h title => exact hu

theorem asciiContents_applyOp (st : State) (op : Op)
    (hst : ∀ s ∈ st, allAscii s.contents) :
    ∀ s ∈ applyOp st op, allAscii s.contents := by
  intro s hs
  rcases mem_applyOp st op s hs with hmem | ⟨now, t, h, title, csvContents, -, rfl⟩
  · exact hst s hmem
  · exact allAscii_cleanContents csvContents

theorem uniqueKeys_foldl (ops : List Op) :
    ∀ st : State, UniqueKeys st → UniqueKeys (ops.foldl applyOp st) := by
  induction ops with
  | nil => exact fun st h => h
  | cons op rest ih => exact fun st h => ih _ (uniqueKeys_applyOp st op h)

theorem asciiContents_foldl (ops : List Op) :
    ∀ st : State, (∀ s ∈ st, allAscii s.contents) →
      ∀ s ∈ ops.foldl applyOp st, allAscii s.contents := by
  induction ops with
  | nil => exact fun st h => h
  | cons op rest ih => exact fun st h => ih _ (asciiContents_applyOp st op h)

/-- C2: duplicate rejection is atomic.  If a live snapshot with the same
`(timestamp, hostname, title)` triple already exists, `add_snapshot` raises
`DuplicateSnapshotError` carrying that conflicting key and the store state
is unchanged (so no snapshot was inserted, no retention sweep was
performed, and every read, in particular `get_snapshot_contents`, returns
exactly what it returned before), for every state and every contents
argument. -/
theorem add_duplicate_rejected (st : State) (now t : Int) (h title : String)
    (csvContents : List Nat) (s : Snapshot) (hs : s ∈ st)
    (hkey : s.timestamp = t ∧ s.hostname = h ∧ s.title = title) :
    addSnapshot st now t h title csvContents = (some (t, h, title), st) ∧
      ∀ (t2 : Int) (h2 title2 : String),
        getSnapshotContents (addSnapshot st now t h title csvContents).2 t2 h2 title2 =
          getSnapshotContents st t2 h2 title2 := by
  have hd : hasDuplicateKey st t h title = true :=
    (hasDuplicateKey_iff st t h title).mpr ⟨s, hs, hkey⟩
  constructor
  · simp [addSnapshot, hd]
  · intro t2 h2 title2
    simp [addSnapshot, hd]

theorem add_duplicate_rejected_witness :
    addSnapshot [{ timestamp := 0, hostname := "h", title := "t", contents := "c" }]
        0 0 "h" "t" [] =
      (some (0, "h", "t"),
        [{ timestamp := 0, hostname := "h", title := "t", contents := "c" }]) :=
  (add_duplicate_rejected _ 0 0 "h" "t" []
    { timestamp := 0, hostname := "h", title := "t", contents := "c" }
    (List.mem_singleton_self _) ⟨rfl, rfl, rfl⟩).1

/-- C3: uniqueness invariant.  In every store state reachable from the
empty store by any sequence of write and read operations, no two live
snapshots share their `(timestamp, hostname, title)` triple. -/
theorem reachable_states_uniqueKeys (ops : List Op) : UniqueKeys (runOps ops) := by
  rw [runOps]
  exact uniqueKeys_foldl ops [] List.Pairwise.nil

/-- C4: retention sweep.  Immediately after every successful `add_snapshot`
the resulting state holds no snapshot strictly older than `now - 14 days`,
every snapshot at or after that horizon (whether previously stored or just
inserted) is still present unchanged, nothing else is present, and none of
the four read operations changes the state. -/
theorem add_runs_retention_sweep (st st' : State) (now t : Int) (h title : String)
    (csvContents : List Nat)
    (hadd : addSnapshot st now t h title csvContents = (none, st')) :
    (∀ s ∈ st', ¬ s.timestamp < now - fourteenDaysSeconds) ∧
      (∀ s, (s ∈ st ∨ s = mkCleanSnapshot t h title csvContents) →
        ¬ s.timestamp < now - fourteenDaysSeconds → s ∈ st') ∧
      (∀ s ∈ st', s ∈ st ∨ s = mkCleanSnapshot t h title csvContents) ∧
      (∀ (day t2 : Int) (h2 title2 : String),
        applyOp st Op.listDays = st ∧ applyOp st (Op.listMinutes day) = st ∧
          applyOp st (Op.listAt t2) = st ∧ applyOp st (Op.getContents t2 h2 title2) = st) := by
  rw [addSnapshot] at hadd
  split at hadd
  · simp at hadd
  · injection hadd with h1 h2
    subst h2
    rw [cleanOldSnapshots]
    refine ⟨?_, ?_, ?_, fun day t2 h2 title2 => ⟨rfl, rfl, rfl, rfl⟩⟩
    · intro s hs
      rcases List.mem_filter.mp hs with ⟨-, hp⟩
      simpa using hp
    · intro s hmem hyoung
      apply List.mem_filter.mpr
      refine ⟨?_, by simpa using hyoung⟩
      rcases hmem with hmem | rfl
      · exact List.mem_append.mpr (Or.inl hmem)
      · exact List.mem_append.mpr (Or.inr (List.mem_singleton_self _))
    · intro s hs
      rcases List.mem_filter.mp hs with ⟨hmem, -⟩
      rcases List.mem_append.mp hmem with hmem | hmem
      · exact Or.inl hmem
      · exact Or.inr (List.mem_singleton.mp hmem)

theorem add_runs_retention_sweep_witness :
    mkCleanSnapshot 100 "h" "t" [] ∈
      [{ timestamp := 100, hostname := "h", title := "t", contents := "" }] :=
  (add_runs_retention_sweep
      [{ timestamp := 0, hostname := "old", title := "t", contents := "c" }]
      [{ timestamp := 100, hostname := "h", title := "t", contents := "" }]
      1209660 100 "h" "t" [] (by decide)).2.1 _ (Or.inr rfl) (by decide)

/-- C5: `get_snapshot_contents` enforces exactly-one resolution.  It
returns the contents of a snapshot precisely when exactly one live snapshot
matches the window-plus-key filter; zero matches give `NoResultFound`
(NotFoundError), two or more give `MultipleResultsFound` (AmbiguousError),
and the read never changes the state. -/
theorem getContents_exactly_one (st : State) (t : Int) (h title : String) :
    (matchingSnapshots st t h title = [] →
        getSnapshotContents st t h title = Except.error GetContentsError.noResultFound) ∧
      (∀ s, matchingSnapshots st t h title = [s] →
        getSnapshotContents st t h title = Except.ok s.contents) ∧
      (2 ≤ (matchingSnapshots st t h title).length →
        getSnapshotContents st t h title = Except.error GetContentsError.multipleResultsFound) ∧
      (∀ c, getSnapshotContents st t h title = Except.ok c →
        ∃ s, matchingSnapshots st t h title = [s] ∧ s.contents = c) ∧
      applyOp st (Op.getContents t h title) = st := by
  rcases hm : matchingSnapshots st t h title with _ | ⟨s1, _ | ⟨s2, rest⟩⟩
  · refine ⟨fun _ => by simp [getSnapshotContents, hm], ?_, ?_, ?_, rfl⟩
    · intro s hs; simp at hs
    · intro hlen; simp at hlen
    · intro c hc; simp [getSnapshotContents, hm] at hc
  · refine ⟨?_, ?_, ?_, ?_, rfl⟩
    · intro hnil; simp at hnil
    · intro s hs
      simp only [List.cons.injEq, and_true] at hs
      subst hs
      simp [getSnapshotContents, hm]
    · intro hlen; simp at hlen
    · intro c hc
      simp only [getSnapshotContents, hm] at hc
      injection hc with hc
      exact ⟨s1, rfl, hc⟩
  · refine ⟨?_, ?_, fun _ => by simp [getSnapshotContents, hm], ?_, rfl⟩
    · intro hnil; simp at hnil
    · intro s hs; simp at hs
    · intro c hc; simp [getSnapshotContents, hm] at hc

theorem getContents_exactly_one_witness :
    getSnapshotContents [{ timestamp := 0, hostname := "h", title := "t", contents := "c" }]
        0 "h" "t" = Except.ok "c" :=
  (getContents_exactly_one _ 0 "h" "t").2.1
    { timestamp := 0, hostname := "h", title := "t", contents := "c" } (by decide)

/-- C1: round-trip.  If the written timestamp is not strictly older than
the sweep horizon `now - 14 days` and no live snapshot with the same
hostname and title has a timestamp in the window `[t, t+60s)`, then
`add_snapshot` succeeds and an immediate `get_snapshot_contents` at the
same key returns exactly the normalization of the raw bytes (UTF-8 decoded
with replacement, then ASCII encoded with decimal numeric character
references). -/
theorem add_getContents_roundtrip (st : State) (now t : Int) (h title : String)
    (csvContents : List Nat)
    (hfresh : now - fourteenDaysSeconds ≤ t)
    (hwindow : ∀ s ∈ st, ¬(s.hostname = h ∧ s.title = title ∧
      t ≤ s.timestamp ∧ s.timestamp < t + sixtySeconds)) :
    (addSnapshot st now t h title csvContents).1 = none ∧
      getSnapshotContents (addSnapshot st now t h title csvContents).2 t h title =
        Except.ok (cleanContents csvContents) := by
  have hnd : hasDuplicateKey st t h title = false := by
    rw [← Bool.not_eq_true, hasDuplicateKey_iff]
    rintro ⟨s, hs, hts, hh, hti⟩
    refine hwindow s hs ⟨hh, hti, le_of_eq hts.symm, ?_⟩
    rw [hts, sixtySeconds_eq]
    omega
  have hadd : addSnapshot st now t h title csvContents =
      (none, cleanOldSnapshots now (st ++ [mkCleanSnapshot t h title csvContents])) := by
    rw [addSnapshot, if_neg]
    simp [hnd]
  rw [hadd]
  refine ⟨rfl, ?_⟩
  have hnotold : ¬ (t < now - fourteenDaysSeconds) := not_lt.mpr hfresh
  have hq : matchesQuery t h title (mkCleanSnapshot t h title csvContents) = true := by
    rw [matchesQuery_iff]
    refine ⟨le_refl t, ?_, rfl, rfl⟩
    rw [sixtySeconds_eq]
    show t < t + 60
    omega
  have hmatch : matchingSnapshots
      (cleanOldSnapshots now (st ++ [mkCleanSnapshot t h title csvContents])) t h title =
      [mkCleanSnapshot t h title csvContents] := by
    rw [matchingSnapshots, cleanOldSnapshots, List.filter_append, List.filter_append]
    have h1 : (st.filter fun s =>
        ! decide (s.timestamp < now - fourteenDaysSeconds)).filter (matchesQuery t h title) =
        [] := by
      rw [List.filter_eq_nil_iff]
      intro s hs hqs
      rcases List.mem_filter.mp hs with ⟨hsst, -⟩
      rcases (matchesQuery_iff t h title s).mp hqs with ⟨hle, hlt, hh, hti⟩
      exact hwindow s hsst ⟨hh, hti, hle, hlt⟩
    have h2 : ([mkCleanSnapshot t h title csvContents].filter fun s =>
        ! decide (s.timestamp < now - fourteenDaysSeconds)) =
        [mkCleanSnapshot t h title csvContents] := by
      have : (! decide ((mkCleanSnapshot t h title csvContents).timestamp <
          now - fourteenDaysSeconds)) = true := by
        simpa [mkCleanSnapshot] using hnotold
      simp [this]
    rw [h2, h1, List.nil_append, List.filter_cons, if_pos hq, List.filter_nil]
  simp only [getSnapshotContents, hmatch]
  rfl

theorem add_getContents_roundtrip_witness :
    (addSnapshot [] 0 0 "h" "t" [104]).1 = none ∧
      getSnapshotContents (addSnapshot [] 0 0 "h" "t" [104]).2 0 "h" "t" =
        Except.ok (cleanContents [104]) :=
  add_getContents_roundtrip [] 0 0 "h" "t" [104] (by decide) (by intro s hs; cases hs)

/-- C6 counterexample: the claim says that under the uniqueness invariant
at most one live snapshot can match a `getContents` query, so that the
AmbiguousError branch is unreachable.  This is false: two snapshots with
the same hostname and title but timestamps 30 seconds apart satisfy the
uniqueness invariant, are both reachable from the empty store by two
successful writes, and both fall in the 60-second window of a single
query, which therefore fails with `MultipleResultsFound`. -/
theorem window_ambiguity_counterexample :
    runOps [Op.add 0 0 "h" "t" [], Op.add 0 30 "h" "t" []] =
        [{ timestamp := 0, hostname := "h", title := "t", contents := "" },
         { timestamp := 30, hostname := "h", title := "t", contents := "" }] ∧
      UniqueKeys
        [{ timestamp := 0, hostname := "h", title := "t", contents := "" },
         { timestamp := 30, hostname := "h", title := "t", contents := "" }] ∧
      (matchingSnapshots
          [{ timestamp := 0, hostname := "h", title := "t", contents := "" },
           { timestamp := 30, hostname := "h", title := "t", contents := "" }]
          0 "h" "t").length = 2 ∧
      getSnapshotContents
          [{ timestamp := 0, hostname := "h", title := "t", contents := "" },
           { timestamp := 30, hostname := "h", title := "t", contents := "" }]
          0 "h" "t" =
        Except.error GetContentsError.multipleResultsFound := by
  refine ⟨by decide, ?_, by decide, by rfl⟩
  rw [UniqueKeys]
  refine List.pairwise_cons.mpr ⟨?_, List.pairwise_singleton _ _⟩
  intro s hs
  rcases List.mem_singleton.mp hs with rfl
  rintro ⟨hts, -, -⟩
  exact absurd hts (by decide)

/-- C6 amended: under the uniqueness invariant at most one live snapshot
matches a key exactly (same timestamp, hostname and title), but several
snapshots with distinct timestamps inside one 60-second window may share
hostname and title, so the AmbiguousError branch of
`get_snapshot_contents` remains reachable. -/
theorem uniqueKeys_exact_match_at_most_one (st : State) (t : Int) (h title : String)
    (hu : UniqueKeys st) : exactKeyCount st t h title ≤ 1 := by
  induction st with
  | nil => simp [exactKeyCount]
  | cons s rest ih =>
    rcases List.pairwise_cons.mp hu with ⟨hs, hrest⟩
    rw [exactKeyCount, List.countP_cons]
    by_cases hp : (decide (s.timestamp = t) && (s.hostname == h) && (s.title == title)) = true
    · have hzero : rest.countP
          (fun s => decide (s.timestamp = t) && (s.hostname == h) && (s.title == title)) = 0 := by
        rw [List.countP_eq_zero]
        intro b hb hbp
        simp only [Bool.and_eq_true, decide_eq_true_eq, beq_iff_eq] at hp hbp
        exact hs b hb
          ⟨hp.1.1.trans hbp.1.1.symm, hp.1.2.trans hbp.1.2.symm, hp.2.trans hbp.2.symm⟩
      rw [hzero, if_pos hp]
    · rw [if_neg hp]
      have := ih hrest
      rw [exactKeyCount] at this
      omega

theorem uniqueKeys_exact_match_witness :
    exactKeyCount [{ timestamp := 0, hostname := "h", title := "t", contents := "c" }]
        0 "h" "t" ≤ 1 :=
  uniqueKeys_exact_match_at_most_one _ 0 "h" "t" (List.pairwise_singleton _ _)

/-- C7: `get_timestamps` returns, strictly ascending and with duplicates
collapsed, exactly the minute-truncated timestamps of the live snapshots
whose timestamp falls in the half-open day interval. -/
theorem listMinutes_spec (st : State) (day : Int) :
    List.Pairwise (· < ·) (getTimestamps st day) ∧
      ∀ x : Int, x ∈ getTimestamps st day ↔
        ∃ s ∈ st, day ≤ s.timestamp ∧ s.timestamp < day + oneDaySeconds ∧
          x = minuteTruncate s.timestamp := by
  constructor
  · exact pairwise_sortedDedup _
  · intro x
    rw [getTimestamps, mem_sortedDedup]
    constructor
    · intro hx
      rcases List.mem_map.mp hx with ⟨s, hsf, rfl⟩
      rcases List.mem_filter.mp hsf with ⟨hsst, hcond⟩
      rw [Bool.and_eq_true, decide_eq_true_eq, decide_eq_true_eq] at hcond
      exact ⟨s, hsst, hcond.1, hcond.2, rfl⟩
    · rintro ⟨s, hsst, h1, h2, rfl⟩
      apply List.mem_map.mpr
      refine ⟨s, List.mem_filter.mpr ⟨hsst, ?_⟩, rfl⟩
      rw [Bool.and_eq_true, decide_eq_true_eq, decide_eq_true_eq]
      exact ⟨h1, h2⟩

theorem listMinutes_spec_witness :
    3720 ∈ getTimestamps
      [{ timestamp := 3723, hostname := "h", title := "t", contents := "c" },
       { timestamp := 3779, hostname := "h", title := "t", contents := "c" }] 0 :=
  ((listMinutes_spec _ 0).2 3720).mpr
    ⟨{ timestamp := 3723, hostname := "h", title := "t", contents := "c" },
      List.mem_cons_self _ _, by decide, by decide, by decide⟩

/-- C8: `get_snapshot_info_at_time` returns the `(hostname, title)` pairs
of exactly the live snapshots whose timestamp falls in `[t, t+60s)`,
sorted ascending by hostname then title, without deduplication: the result
is a permutation of the projected window rows, so each pair occurs exactly
once per matching snapshot, and it is sorted under the lexicographic
order. -/
theorem listAt_spec (st : State) (t : Int) :
    List.Perm (getSnapshotInfoAtTime st t)
        ((st.filter fun s =>
            decide (t ≤ s.timestamp) && decide (s.timestamp < t + sixtySeconds)).map
          fun s => (s.hostname, s.title)) ∧
      List.Pairwise (fun a b => pairLe a b = true) (getSnapshotInfoAtTime st t) := by
  have hperm : List.Perm (getSnapshotInfoAtTime st t)
      ((st.filter fun s =>
          decide (t ≤ s.timestamp) && decide (s.timestamp < t + sixtySeconds)).map
        fun s => (s.hostname, s.title)) := by
    rw [getSnapshotInfoAtTime]
    exact List.mergeSort_perm _ pairLe
  refine ⟨hperm, ?_⟩
  rw [getSnapshotInfoAtTime]
  exact List.sorted_mergeSort pairLe_trans pairLe_total _

theorem listAt_spec_witness :
    List.Perm
      (getSnapshotInfoAtTime
        [{ timestamp := 3, hostname := "myhost", title := "some stuff", contents := "c" },
         { timestamp := 3, hostname := "otherhost", title := "some stuff", contents := "c" },
         { timestamp := 3, hostname := "myhost", title := "other stuff", contents := "c" },
         { timestamp := -57, hostname := "myhost", title := "some stuff", contents := "c" }]
        3)
      ((([{ timestamp := 3, hostname := "myhost", title := "some stuff", contents := "c" },
          { timestamp := 3, hostname := "otherhost", title := "some stuff", contents := "c" },
          { timestamp := 3, hostname := "myhost", title := "other stuff", contents := "c" },
          { timestamp := -57, hostname := "myhost", title := "some stuff", contents := "c" }] :
            State).filter fun s =>
            decide ((3 : Int) ≤ s.timestamp) &&
              decide (s.timestamp < (3 : Int) + sixtySeconds)).map
        fun s => (s.hostname, s.title)) :=
  (listAt_spec _ 3).1

/-- C9: ASCII invariant and immutability.  In every state reachable from
the empty store the contents of every live snapshot are ASCII-only, and
every snapshot present after any operation is either a snapshot of the
previous state, unchanged, or the row freshly inserted by a write — no
operation rewrites the contents of a stored snapshot. -/
theorem ascii_and_immutable_contents :
    (∀ ops : List Op, ∀ s ∈ runOps ops, allAscii s.contents) ∧
      ∀ (st : State) (op : Op) (s : Snapshot), s ∈ applyOp st op →
        s ∈ st ∨ ∃ now t h title csvContents,
          op = Op.add now t h title csvContents ∧ s = mkCleanSnapshot t h title csvContents := by
  constructor
  · intro ops
    rw [runOps]
    exact asciiContents_foldl ops [] (by intro s hs; cases hs)
  · exact mem_applyOp

theorem ascii_and_immutable_contents_witness :
    allAscii ({ timestamp := 0, hostname := "h", title := "t", contents := "h" } :
      Snapshot).contents :=
  ascii_and_immutable_contents.1 [Op.add 0 0 "h" "t" [104]] _ (by decide)

/-- C10 counterexample: the claim concludes that after a too-old write the
subsequent `get_snapshot_contents` at the written key fails with
NotFoundError.  This is false when another live snapshot with the same
hostname and title survives the sweep inside the 60-second window: here
`now = 1209660` (horizon 60), the write at timestamp 30 is strictly older
than the horizon and conflicts with no triple, the write succeeds and the
inserted row is swept, yet the query at timestamp 30 finds the surviving
snapshot at timestamp 60 and returns its contents instead of failing. -/
theorem self_purge_notFound_counterexample :
    (30 : Int) < 1209660 - fourteenDaysSeconds ∧
      hasDuplicateKey [{ timestamp := 60, hostname := "h", title := "t", contents := "c" }]
          30 "h" "t" = false ∧
      (addSnapshot [{ timestamp := 60, hostname := "h", title := "t", contents := "c" }]
          1209660 30 "h" "t" []).1 = none ∧
      getSnapshotContents
          (addSnapshot [{ timestamp := 60, hostname := "h", title := "t", contents := "c" }]
            1209660 30 "h" "t" []).2 30 "h" "t" = Except.ok "c" :=
  ⟨by decide, by decide, by decide, by rfl⟩

/-- C10 amended: a write whose timestamp is strictly older than
`now - 14 days` and conflicts with no existing triple succeeds without
error, yet the sweep run in the same call deletes the just-inserted row:
no snapshot with the written timestamp remains, so the written snapshot
itself is never observable.  The stronger conclusion that
`get_snapshot_contents` at the written key fails with NotFoundError holds
under the additional hypothesis that no other live snapshot with the same
hostname and title has a timestamp in `[t, t+60s)`. -/
theorem add_self_purge (st : State) (now t : Int) (h title : String) (csvContents : List Nat)
    (hold : t < now - fourteenDaysSeconds)
    (hnodup : ∀ s ∈ st, ¬(s.timestamp = t ∧ s.hostname = h ∧ s.title = title)) :
    (addSnapshot st now t h title csvContents).1 = none ∧
      (∀ s ∈ (addSnapshot st now t h title csvContents).2, s.timestamp ≠ t) ∧
      mkCleanSnapshot t h title csvContents ∉ (addSnapshot st now t h title csvContents).2 ∧
      ((∀ s ∈ st, ¬(s.hostname = h ∧ s.title = title ∧ t ≤ s.timestamp ∧
          s.timestamp < t + sixtySeconds)) →
        getSnapshotContents (addSnapshot st now t h title csvContents).2 t h title =
          Except.error GetContentsError.noResultFound) := by
  have hnd : hasDuplicateKey st t h title = false := by
    rw [← Bool.not_eq_true, hasDuplicateKey_iff]
    rintro ⟨s, hs, hk⟩
    exact hnodup s hs hk
  have hadd : addSnapshot st now t h title csvContents =
      (none, cleanOldSnapshots now (st ++ [mkCleanSnapshot t h title csvContents])) := by
    simp [addSnapshot, hnd]
  rw [hadd]
  have hkept : ∀ s ∈ cleanOldSnapshots now (st ++ [mkCleanSnapshot t h title csvContents]),
      ¬ s.timestamp < now - fourteenDaysSeconds := by
    intro s hs
    rw [cleanOldSnapshots] at hs
    rcases List.mem_filter.mp hs with ⟨-, hp⟩
    simpa using hp
  refine ⟨rfl, ?_, ?_, ?_⟩
  · intro s hs
    have := hkept s hs
    omega
  · intro hmem
    exact absurd hold (by simpa [mkCleanSnapshot] using hkept _ hmem)
  · intro hwin
    have hempty : matchingSnapshots
        (cleanOldSnapshots now (st ++ [mkCleanSnapshot t h title csvContents])) t h title =
        [] := by
      rw [matchingSnapshots, List.filter_eq_nil_iff]
      intro s hs hq
      rcases (matchesQuery_iff t h title s).mp hq with ⟨hle, hlt, hh, hti⟩
      have hsnotold := hkept s hs
      rw [cleanOldSnapshots] at hs
      rcases List.mem_filter.mp hs with ⟨hmem, -⟩
      rcases List.mem_append.mp hmem with hmem | hmem
      · exact hwin s hmem ⟨hh, hti, hle, hlt⟩
      · rcases List.mem_singleton.mp hmem with rfl
        exact hsnotold hold
    simp [getSnapshotContents, hempty]

theorem add_self_purge_witness :
    getSnapshotContents (addSnapshot [] 1209660 30 "h" "t" []).2 30 "h" "t" =
      Except.error GetContentsError.noResultFound :=
  (add_self_purge [] 1209660 30 "h" "t" [] (by decide)
    (by intro s hs; cases hs)).2.2.2 (by intro s hs; cases hs)

end TimeTurner
